import Mathlib

/-!
Verification of the `bs` log collection and relay pipeline (package `log`).

The repository ships the package's test suite; the pipeline itself
(syslog relay, container-name resolver, file monitor/tailer, kubernetes
directory watcher) is modelled here from the specification, faithful to
its wording and to the concrete wire formats exercised by the tests.
Messages, filenames and file contents are modelled as `List Char`
(byte-level strings).
-/

set_option autoImplicit false

namespace BsLog

/-- Splits a character list at the first occurrence of `ch`, dropping the
separator: `breakAtChar ':' "ab:cd" = some ("ab", "cd")`. -/
def breakAtChar (ch : Char) : List Char → Option (List Char × List Char)
  | [] => none
  | c :: rest =>
    if c = ch then some ([], rest)
    else (breakAtChar ch rest).map (fun p => (c :: p.1, p.2))

/-- Boolean test that `p` starts `l`. -/
def leadsWith : List Char → List Char → Bool
  | [], _ => true
  | _ :: _, [] => false
  | a :: as, b :: bs => a = b && leadsWith as bs

/-- Boolean test that `s` ends `l`. -/
def trailsWith (s l : List Char) : Bool :=
  leadsWith s.reverse l.reverse

/-- Splits a character list at the first occurrence of the (nonempty)
separator sequence `sep`, dropping the separator. -/
def breakAtSeq (sep : List Char) : List Char → Option (List Char × List Char)
  | [] => none
  | c :: rest =>
    if leadsWith sep (c :: rest) then some ([], (c :: rest).drop sep.length)
    else (breakAtSeq sep rest).map (fun p => (c :: p.1, p.2))

/-- Splits a character list at the last occurrence of `ch`; when `ch` does
not occur, the whole input is returned as the first component. -/
def breakAtLastChar (ch : Char) (l : List Char) : List Char × List Char :=
  match breakAtChar ch l.reverse with
  | some p => (p.2.reverse, p.1.reverse)
  | none => (l, [])

/-- Splits a character buffer into its complete (newline-terminated) lines,
with the trailing partial line (no newline yet) returned separately. -/
def splitLines : List Char → List (List Char) × List Char
  | [] => ([], [])
  | c :: rest =>
    if c = '\n' then
      let p := splitLines rest
      ([] :: p.1, p.2)
    else
      match splitLines rest with
      | (l :: ls, r) => ((c :: l) :: ls, r)
      | ([], r) => ([], c :: r)

/-- Number of bytes consumed by a list of complete lines (each line plus its
terminating newline). -/
def linesLen (ls : List (List Char)) : Nat :=
  (ls.map (fun l => l.length + 1)).sum

theorem breakAtChar_append (ch : Char) (xs ys : List Char) (h : ch ∉ xs) :
    breakAtChar ch (xs ++ ch :: ys) = some (xs, ys) := by
  induction xs with
  | nil => simp [breakAtChar]
  | cons c xs ih =>
    have hc : ¬ c = ch := fun hce => h (hce ▸ List.mem_cons_self c xs)
    simp [breakAtChar, if_neg hc, ih (fun hm => h (List.mem_cons_of_mem c hm))]

theorem leadsWith_append (p t : List Char) : leadsWith p (p ++ t) = true := by
  induction p with
  | nil => rfl
  | cons a as ih => simp [leadsWith, ih]

theorem leadsWith_iff (p l : List Char) :
    leadsWith p l = true ↔ ∃ t, l = p ++ t := by
  constructor
  · intro h
    induction p generalizing l with
    | nil => exact ⟨l, rfl⟩
    | cons a as ih =>
      match l with
      | [] => simp [leadsWith] at h
      | b :: bs =>
        simp only [leadsWith, Bool.and_eq_true, decide_eq_true_eq] at h
        obtain ⟨t, ht⟩ := ih bs h.2
        exact ⟨t, by simp [h.1, ht]⟩
  · rintro ⟨t, rfl⟩
    exact leadsWith_append p t

theorem splitLines_append (l s : List Char) (h : '\n' ∉ l) :
    splitLines (l ++ '\n' :: s) =
      (l :: (splitLines s).1, (splitLines s).2) := by
  induction l with
  | nil => simp [splitLines]
  | cons c cs ih =>
    have hc : ¬ c = '\n' := fun hce => h (hce ▸ List.mem_cons_self c cs)
    have ih' := ih (fun hm => h (List.mem_cons_of_mem c hm))
    simp only [List.cons_append, splitLines, if_neg hc, List.append_eq, ih']

theorem splitLines_rest_no_newline (s : List Char) :
    '\n' ∉ (splitLines s).2 := by
  induction s with
  | nil => simp [splitLines]
  | cons c rest ih =>
    by_cases hc : c = '\n'
    · simpa [splitLines, hc] using ih
    · simp only [splitLines, if_neg hc]
      match hrec : splitLines rest with
      | (l :: ls, r) =>
        rw [hrec] at ih
        simpa using ih
      | ([], r) =>
        rw [hrec] at ih
        simp only at ih ⊢
        intro hm
        rcases List.mem_cons.mp hm with h1 | h2
        · exact hc h1.symm
        · exact ih h2

theorem splitLines_drop (s : List Char) :
    s.drop (linesLen (splitLines s).1) = (splitLines s).2 := by
  induction s with
  | nil => simp [splitLines, linesLen]
  | cons c rest ih =>
    by_cases hc : c = '\n'
    · subst hc
      simp only [splitLines, if_pos rfl]
      simpa [linesLen, Nat.add_comm] using ih
    · simp only [splitLines, if_neg hc]
      match hrec : splitLines rest with
      | (l :: ls, r) =>
        rw [hrec] at ih
        simp only [linesLen, List.map_cons, List.sum_cons] at ih ⊢
        simpa [Nat.add_assoc, Nat.add_comm, Nat.add_left_comm] using ih
      | ([], r) =>
        rw [hrec] at ih
        simpa [linesLen] using ih

theorem splitLines_no_newline (s : List Char) (h : '\n' ∉ s) :
    splitLines s = ([], s) := by
  induction s with
  | nil => rfl
  | cons c rest ih =>
    have hc : ¬ c = '\n' := fun hce => h (hce ▸ List.mem_cons_self c rest)
    have ih' := ih (fun hm => h (List.mem_cons_of_mem c hm))
    simp [splitLines, if_neg hc, ih']

theorem splitLines_length (s : List Char) :
    linesLen (splitLines s).1 + (splitLines s).2.length = s.length := by
  induction s with
  | nil => simp [splitLines, linesLen]
  | cons c rest ih =>
    by_cases hc : c = '\n'
    · subst hc
      simp only [splitLines, if_true, decide_True, ite_true]
      simp [linesLen] at ih ⊢
      omega
    · simp only [splitLines, if_neg hc]
      match hrec : splitLines rest with
      | (l :: ls, r) =>
        rw [hrec] at ih
        simp only [linesLen, List.map_cons, List.sum_cons, List.length_cons] at ih ⊢
        omega
      | ([], r) =>
        rw [hrec] at ih
        simp only [linesLen, List.map_nil, List.sum_nil, List.length_cons] at ih ⊢
        omega

theorem linesLen_le (s : List Char) :
    linesLen (splitLines s).1 ≤ s.length := by
  have h := splitLines_length s
  omega

/-- Components of an inbound syslog line `<priority>timestamp host tag: message`. -/
structure syslogParts where
  priority : List Char
  timestamp : List Char
  host : List Char
  tag : List Char
  message : List Char
deriving DecidableEq

/-- Modelled from the spec: the Relay's parse of an inbound syslog-formatted
line shaped `<priority>timestamp host tag: message` (the `LogForwarder`
receive path is absent from the repository; only its tests are present).
The priority is the bracketed run after `<`, timestamp and host are the next
two space-delimited fields, and the tag extends to the first colon, followed
by a space and the message bytes. -/
def parseSyslogLine (line : List Char) : Option syslogParts :=
  match line with
  | [] => none
  | c :: rest =>
    if c = '<' then
      match breakAtChar '>' rest with
      | none => none
      | some (pri, r1) =>
        match breakAtChar ' ' r1 with
        | none => none
        | some (ts, r2) =>
          match breakAtChar ' ' r2 with
          | none => none
          | some (host, r3) =>
            match breakAtChar ':' r3 with
            | none => none
            | some (tag, r4) =>
              match r4 with
              | [] => none
              | c2 :: msg =>
                if c2 = ' ' then some ⟨pri, ts, host, tag, msg⟩ else none
    else none

/-- Modelled from the spec: for each received message the Relay extracts
`containerId` from the `docker/<containerId>` tag, resolves its display name,
and rewrites the line as `<priority>timestamp <containerId> <displayName>:
message`; `resolve` abstracts the Resolver consulted by the Relay. -/
def processMessage (resolve : List Char → List Char) (line : List Char) :
    Option (List Char) :=
  match parseSyslogLine line with
  | none => none
  | some p =>
    if leadsWith "docker/".data p.tag then
      let cid := p.tag.drop "docker/".data.length
      some ('<' :: (p.priority ++ '>' :: (p.timestamp ++ ' ' ::
        (cid ++ ' ' :: (resolve cid ++ ':' :: ' ' :: p.message)))))
    else none

/-- Bounded cache of container id to display name, most recent first. -/
structure lruCache where
  entries : List (List Char × List Char)
  capacity : Nat

/-- Cache lookup by container id. -/
def cacheGet (c : lruCache) (k : List Char) : Option (List Char) :=
  (c.entries.find? (fun p => p.1 == k)).map (fun p => p.2)

/-- Cache insertion: the new pair goes to the front (most recently used) and
the least recently used entries beyond the capacity are evicted. -/
def cacheAdd (c : lruCache) (k v : List Char) : lruCache :=
  ⟨((k, v) :: c.entries.filter (fun p => ¬ p.1 == k)).take c.capacity,
    c.capacity⟩

/-- Relay resolver configuration: the name of the environment variable that
holds the application name (empty when unconfigured). -/
structure resolverConfig where
  appNameEnvVar : List Char

/-- Modelled from the spec: the first `KEY=VALUE` environment entry matching
the configured variable name as a literal prefix yields the display name
(the remainder after that prefix). -/
def envAppName (envVar : List Char) (env : List (List Char)) :
    Option (List Char) :=
  (env.find? (fun e => leadsWith envVar e)).map (fun e => e.drop envVar.length)

/-- Result of one resolver query: the resolved name, the updated cache, and
the number of container-runtime inspect calls performed. -/
structure resolveResult where
  name : List Char
  cache : lruCache
  inspectCalls : Nat

/-- Modelled from the spec: `resolve(containerId)`. A cache hit returns
immediately; on a miss with no configured variable the id itself is cached;
otherwise the runtime is inspected for the container's environment
(`inspect` returns `none` on lookup failure) and the first matching entry's
value — or, failing that, the id itself — is cached and returned. -/
def resolveStep (cfg : resolverConfig)
    (inspect : List Char → Option (List (List Char)))
    (cache : lruCache) (cid : List Char) : resolveResult :=
  match cacheGet cache cid with
  | some v => ⟨v, cache, 0⟩
  | none =>
    if cfg.appNameEnvVar = [] then ⟨cid, cacheAdd cache cid cid, 0⟩
    else
      let name :=
        match inspect cid with
        | none => cid
        | some env => (envAppName cfg.appNameEnvVar env).getD cid
      ⟨name, cacheAdd cache cid name, 1⟩

/-- Modelled from the spec: `start()` validates that the bind address scheme
is `udp` or `tcp` and otherwise fails with a descriptive protocol error. -/
def checkBindAddress (addr : List Char) : Except (List Char) Unit :=
  let proto :=
    match breakAtSeq "://".data addr with
    | some p => p.1
    | none => []
  if proto = "udp".data ∨ proto = "tcp".data then Except.ok ()
  else Except.error ("invalid protocol \"".data ++ proto ++
    "\", expected tcp or udp".data)

/-- Modelled from the spec: establishing the transport for one forward
address. UDP establishment is local and always succeeds; TCP must complete a
real connect (abstracted by `tcpDial`); an unknown scheme fails as the
network layer reports it. -/
def dialForward (tcpDial : List Char → Except (List Char) Unit)
    (addr : List Char) : Except (List Char) Unit :=
  match breakAtSeq "://".data addr with
  | some p =>
    if p.1 = "udp".data then Except.ok ()
    else if p.1 = "tcp".data then tcpDial p.2
    else Except.error ("dial ".data ++ p.1 ++ ": unknown network ".data ++ p.1)
  | none => Except.error ("missing port in address ".data ++ addr)

/-- Modelled from the spec: the forward addresses are connected in order and
any failure aborts with an error identifying the offending address and the
underlying cause; on success all established connections are returned. -/
def connectForwards (tcpDial : List Char → Except (List Char) Unit) :
    List (List Char) → Except (List Char) (List (List Char))
  | [] => Except.ok []
  | a :: rest =>
    match dialForward tcpDial a with
    | Except.error e =>
      Except.error ("unable to connect to \"".data ++ a ++ "\": ".data ++ e)
    | Except.ok _ =>
      match connectForwards tcpDial rest with
      | Except.error e => Except.error e
      | Except.ok cs => Except.ok (a :: cs)

/-- Modelled from the spec: `LogForwarder.Start()` validates the bind
address, then connects every forward address; any failure aborts the whole
start with no partial operation. -/
def forwarderStart (tcpDial : List Char → Except (List Char) Unit)
    (bind : List Char) (forwards : List (List Char)) :
    Except (List Char) (List (List Char)) :=
  match checkBindAddress bind with
  | Except.error e => Except.error e
  | Except.ok _ => connectForwards tcpDial forwards

/-- Normalized log record produced by both pipelines, with the field names
used by the tests: content bytes, timestamp, source container id, and syslog
priority bytes. -/
structure rawLogParts where
  content : List Char
  ts : List Char
  container : List Char
  priority : List Char
deriving DecidableEq

/-- Escape of one character for a JSON string literal. -/
def escapeChar (c : Char) : List Char :=
  if c = '"' then ['\\', '"']
  else if c = '\\' then ['\\', '\\']
  else if c = '\n' then ['\\', 'n']
  else if c = '\t' then ['\\', 't']
  else if c = '\r' then ['\\', 'r']
  else [c]

/-- Escape of a whole JSON string body. -/
def escapeString (s : List Char) : List Char :=
  (s.map escapeChar).flatten

/-- Unescape of the character following a backslash in a JSON string. -/
def unescapeChar (c : Char) : Option Char :=
  if c = '"' then some '"'
  else if c = '\\' then some '\\'
  else if c = 'n' then some '\n'
  else if c = 't' then some '\t'
  else if c = 'r' then some '\r'
  else none

/-- Parses a JSON string body up to its closing quote (the opening quote has
already been consumed), returning the unescaped content and the remainder
after the closing quote. -/
def parseJsonString : List Char → Option (List Char × List Char)
  | [] => none
  | c :: rest =>
    if c = '"' then some ([], rest)
    else if c = '\\' then
      match rest with
      | [] => none
      | e :: rest2 =>
        match unescapeChar e with
        | none => none
        | some u => (parseJsonString rest2).map (fun p => (u :: p.1, p.2))
    else (parseJsonString rest).map (fun p => (c :: p.1, p.2))

/-- Digits of a fractional-second tail followed by the final `Z`. -/
def timeFracTail : List Char → Bool
  | ['Z'] => true
  | c :: rest => c.isDigit && timeFracTail rest
  | [] => false

/-- Tail of an RFC3339 timestamp after the seconds: either `Z` directly or a
dot, at least one fractional digit, and `Z`. -/
def timeTail : List Char → Bool
  | ['Z'] => true
  | '.' :: c :: rest => c.isDigit && timeFracTail rest
  | _ => false

/-- Numeric value of a two-digit field. -/
def twoDigits (a b : Char) : Nat :=
  (a.toNat - '0'.toNat) * 10 + (b.toNat - '0'.toNat)

/-- Modelled from the spec: shape check of an RFC3339 timestamp with
nanosecond precision, `YYYY-MM-DDTHH:MM:SS(.digits)?Z`, with in-range
month, day, hour, minute and second fields. -/
def validRFC3339 (t : List Char) : Bool :=
  match t with
  | y1 :: y2 :: y3 :: y4 :: s1 :: m1 :: m2 :: s2 :: d1 :: d2 :: tc ::
      h1 :: h2 :: c1 :: mi1 :: mi2 :: c2 :: se1 :: se2 :: rest =>
    y1.isDigit && y2.isDigit && y3.isDigit && y4.isDigit &&
    s1 == '-' && m1.isDigit && m2.isDigit && s2 == '-' &&
    d1.isDigit && d2.isDigit && tc == 'T' &&
    h1.isDigit && h2.isDigit && c1 == ':' &&
    mi1.isDigit && mi2.isDigit && c2 == ':' &&
    se1.isDigit && se2.isDigit &&
    decide (1 ≤ twoDigits m1 m2) && decide (twoDigits m1 m2 ≤ 12) &&
    decide (1 ≤ twoDigits d1 d2) && decide (twoDigits d1 d2 ≤ 31) &&
    decide (twoDigits h1 h2 ≤ 23) && decide (twoDigits mi1 mi2 ≤ 59) &&
    decide (twoDigits se1 se2 ≤ 59) &&
    timeTail rest
  | _ => false

/-- Modelled from the spec: the fixed priority mapping, `stream == "stderr"`
to `27` and `stream == "stdout"` to `30`; any other value is a decode error
for that line. -/
def streamPriority (stream : List Char) : Option (List Char) :=
  if stream = "stderr".data then some "27".data
  else if stream = "stdout".data then some "30".data
  else none

/-- Strips the literal `p` from the front of `l`, failing when `p` does not
start `l`. -/
def dropLiteral (p l : List Char) : Option (List Char) :=
  if leadsWith p l then some (l.drop p.length) else none

/-- Removes a single trailing newline from the decoded `log` text. -/
def stripTrailingNewline (l : List Char) : List Char :=
  match l.reverse with
  | c :: r => if c = '\n' then r.reverse else l
  | [] => l

/-- Modelled from the spec: decode of one JSON log-file line shaped
`\x7b"log": string, "stream": "stdout"|"stderr", "time": RFC3339\x7d` into a
`rawLogParts` for the given source id; any malformed field is a decode error
(the line is dropped). -/
def decodeLogLine (sourceId : List Char) (line : List Char) :
    Option rawLogParts :=
  match dropLiteral "\x7b\"log\":\"".data line with
  | none => none
  | some r1 =>
    match parseJsonString r1 with
    | none => none
    | some (log, r2) =>
      match dropLiteral ",\"stream\":\"".data r2 with
      | none => none
      | some r3 =>
        match parseJsonString r3 with
        | none => none
        | some (stream, r4) =>
          match dropLiteral ",\"time\":\"".data r4 with
          | none => none
          | some r5 =>
            match parseJsonString r5 with
            | none => none
            | some (time, r6) =>
              if r6 = "\x7d".data then
                match streamPriority stream with
                | none => none
                | some prio =>
                  if validRFC3339 time then
                    some ⟨stripTrailingNewline log, time, sourceId, prio⟩
                  else none
              else none

/-- Raw field values of one well-formed JSON log line. -/
structure jsonLogLine where
  log : List Char
  stream : List Char
  time : List Char

/-- Rendering of one JSON log line as the container runtime writes it. -/
def encodeLogLine (l : jsonLogLine) : List Char :=
  "\x7b\"log\":\"".data ++ (escapeString l.log ++ '"' ::
    (",\"stream\":\"".data ++ (escapeString l.stream ++ '"' ::
      (",\"time\":\"".data ++ (escapeString l.time ++ '"' :: "\x7d".data)))))

/-- Rendering of a whole log file: one encoded line plus newline per entry. -/
def encodeLogFile (ls : List jsonLogLine) : List Char :=
  (ls.map (fun l => encodeLogLine l ++ ['\n'])).flatten

/-- Modelled from the spec: startup offset resolution — the stored offset
when an offset-store file exists, byte 0 otherwise. -/
def initialOffset : Option Nat → Nat
  | some n => n
  | none => 0

/-- Modelled from the spec: one poll cycle of the file monitor at an
observed file content. When the size is below the tracked offset
(truncation) the offset resets to 0; the unread chunk is split into complete
lines, the offset advances past each fully consumed line, and each line that
decodes yields one record (lines that fail to decode are dropped). -/
def stepMonitor (sourceId : List Char) (content : List Char) (offset : Nat) :
    Nat × List rawLogParts :=
  let off := if content.length < offset then 0 else offset
  let chunk := content.drop off
  let p := splitLines chunk
  (off + linesLen p.1, p.1.filterMap (decodeLogLine sourceId))

/-- Modelled from the spec: the monitor's poll loop over a sequence of
observed file contents, threading the offset and concatenating emitted
records in order. -/
def runMonitor (sourceId : List Char) :
    Nat → List (List Char) → Nat × List rawLogParts
  | offset, [] => (offset, [])
  | offset, c :: rest =>
    let p := stepMonitor sourceId c offset
    let q := runMonitor sourceId p.1 rest
    (q.1, p.2 ++ q.2)

/-- Identity parsed from a kubernetes log filename. -/
structure logFileEntry where
  podName : List Char
  nsName : List Char
  containerName : List Char
  containerID : List Char
deriving DecidableEq

/-- Strips `suf` from the end of `l` when it is there. -/
def stripTail (suf l : List Char) : List Char :=
  if trailsWith suf l then l.take (l.length - suf.length) else l

/-- Modelled from the spec: `logEntryFromName` parses a filename of the
convention `podName_namespace_containerName-containerID.log`. The pod name
and namespace are the first two underscore-delimited fields, and the
remainder (after dropping the `.log` suffix) is split on its last hyphen
into the container name (which may itself contain hyphens) and the
container id. Degenerate names parse with empty missing fields. -/
def logEntryFromName (name : List Char) : logFileEntry :=
  let base := stripTail ".log".data name
  match breakAtChar '_' base with
  | none => ⟨base, [], [], []⟩
  | some (pod, r1) =>
    match breakAtChar '_' r1 with
    | none => ⟨pod, r1, [], []⟩
    | some (ns, rest) =>
      let p := breakAtLastChar '-' rest
      ⟨pod, ns, p.1, p.2⟩

/-- Modelled from the spec: entries whose container name is `POD` (the
pause/sandbox container) or whose namespace is `kube-system` never produce
a Tailer. -/
def filteredOut (e : logFileEntry) : Bool :=
  e.containerName = "POD".data || e.nsName = "kube-system".data

/-- Filenames considered by the watcher: the kubernetes log files. -/
def isLogFile (f : List Char) : Bool :=
  trailsWith ".log".data f

/-- Modelled from the spec: tracking of one listed filename during a scan —
a filename whose entry is filtered or whose container id is already tracked
leaves the monitors unchanged; otherwise a monitor keyed by the container id
is created for it. -/
def addMonitorStep (acc : List (List Char × List Char)) (f : List Char) :
    List (List Char × List Char) :=
  let e := logEntryFromName f
  if filteredOut e then acc
  else if e.containerID ∈ acc.map Prod.fst then acc
  else acc ++ [(e.containerID, f)]

/-- Modelled from the spec: one scan-and-reconcile cycle of the directory
watcher over the current listing `files` and the tracked monitors (pairs of
container id and backing filename). Well-formed, unfiltered filenames whose
container id is not yet tracked get a monitor; monitors whose backing file
is absent from the listing are stopped and removed. -/
def watchOnce (files : List (List Char))
    (monitors : List (List Char × List Char)) :
    List (List Char × List Char) :=
  let consider := files.filter isLogFile
  (consider.foldl addMonitorStep monitors).filter (fun p => p.2 ∈ consider)

/-- Display name the Relay obtains from one resolver query. -/
def resolveName (cfg : resolverConfig)
    (inspect : List Char → Option (List (List Char)))
    (cache : lruCache) (cid : List Char) : List Char :=
  (resolveStep cfg inspect cache cid).name

theorem breakAtSeq_append (s0 : Char) (sep xs ys : List Char)
    (h : s0 ∉ xs) :
    breakAtSeq (s0 :: sep) (xs ++ (s0 :: sep) ++ ys) = some (xs, ys) := by
  induction xs with
  | nil =>
    simp only [List.nil_append, List.cons_append, breakAtSeq,
      List.append_eq]
    rw [if_pos]
    · simp only [List.length_cons, Option.some.injEq, Prod.mk.injEq, true_and]
      rw [List.drop_succ_cons]
      exact List.drop_left sep ys
    · have he : s0 :: (sep ++ ys) = (s0 :: sep) ++ ys := rfl
      rw [he]
      exact leadsWith_append (s0 :: sep) ys
  | cons c xs ih =>
    have hc : ¬ (s0 = c) := fun hce => h (hce ▸ List.mem_cons_self c xs)
    have ih' := ih (fun hm => h (List.mem_cons_of_mem c hm))
    simp only [List.cons_append, breakAtSeq, leadsWith, hc, decide_False,
      Bool.false_and, Bool.false_eq_true, if_false, List.append_eq, ih']
    rfl

theorem breakAtSeq_scheme (xs ys : List Char) (h : ':' ∉ xs) :
    breakAtSeq "://".data (xs ++ "://".data ++ ys) = some (xs, ys) :=
  breakAtSeq_append ':' "//".data xs ys h

theorem stripTail_append (suf l : List Char) :
    stripTail suf (l ++ suf) = l := by
  have ht : trailsWith suf (l ++ suf) = true := by
    simp only [trailsWith, List.reverse_append]
    exact leadsWith_append suf.reverse l.reverse
  simp only [stripTail, ht, if_true, List.length_append]
  have : l.length + suf.length - suf.length = l.length := by omega
  rw [this, List.take_left]

theorem breakAtLastChar_append (ch : Char) (a b : List Char) (h : ch ∉ b) :
    breakAtLastChar ch (a ++ ch :: b) = (a, b) := by
  have hrev : (a ++ ch :: b).reverse = b.reverse ++ ch :: a.reverse := by
    simp
  have hb : ch ∉ b.reverse := fun hm => h (List.mem_reverse.mp hm)
  simp [breakAtLastChar, hrev, breakAtChar_append ch b.reverse a.reverse hb]

theorem cacheGet_cacheAdd (c : lruCache) (k v : List Char)
    (h : 0 < c.capacity) :
    cacheGet (cacheAdd c k v) k = some v := by
  obtain ⟨n, hn⟩ : ∃ n, c.capacity = n + 1 := ⟨c.capacity - 1, by omega⟩
  simp [cacheGet, cacheAdd, hn, List.take_succ_cons, List.find?]

theorem connectForwards_failure (tcpDial : List Char → Except (List Char) Unit)
    (pre : List (List Char)) (bad : List Char) (suf : List (List Char))
    (e : List Char)
    (hpre : ∀ a ∈ pre, dialForward tcpDial a = Except.ok ())
    (hbad : dialForward tcpDial bad = Except.error e) :
    connectForwards tcpDial (pre ++ bad :: suf) =
      Except.error ("unable to connect to \"".data ++ bad ++ "\": ".data ++ e) := by
  induction pre with
  | nil => simp [connectForwards, hbad]
  | cons a as ih =>
    have ha := hpre a (List.mem_cons_self a as)
    have ih' := ih (fun x hx => hpre x (List.mem_cons_of_mem a hx))
    simp [connectForwards, ha, ih']

theorem find?_first_match (q : List Char → Bool) (pre : List (List Char))
    (x : List Char) (suf : List (List Char))
    (hpre : ∀ e ∈ pre, q e = false) (hx : q x = true) :
    (pre ++ x :: suf).find? q = some x := by
  induction pre with
  | nil => simp [List.find?_cons, hx]
  | cons a as ih =>
    have ha := hpre a (List.mem_cons_self a as)
    have ih' := ih (fun y hy => hpre y (List.mem_cons_of_mem a hy))
    simp [List.find?_cons, ha, ih']

/-- C1: every inbound syslog line `<priority>timestamp host docker/<cid>:
message` received by a started Relay is forwarded with the container id in
the host position and the resolved display name in the tag position, the
priority, timestamp and message bytes unchanged. -/
theorem relay_forwards_rewritten_line
    (resolve : List Char → List Char) (pri ts host cid msg : List Char)
    (h1 : '>' ∉ pri) (h2 : ' ' ∉ ts) (h3 : ' ' ∉ host) (h4 : ':' ∉ cid) :
    processMessage resolve
      ('<' :: (pri ++ '>' :: (ts ++ ' ' :: (host ++ ' ' ::
        (("docker/".data ++ cid) ++ ':' :: ' ' :: msg))))) =
    some ('<' :: (pri ++ '>' :: (ts ++ ' ' :: (cid ++ ' ' ::
      (resolve cid ++ ':' :: ' ' :: msg))))) := by
  have hdc : ':' ∉ ("docker/".data ++ cid) := by
    intro hm
    rcases List.mem_append.mp hm with hq | hq
    · revert hq; decide
    · exact h4 hq
  have hcolon := breakAtChar_append ':' ("docker/".data ++ cid) (' ' :: msg) hdc
  have hlead := leadsWith_append "docker/".data cid
  have hdrop := List.drop_left "docker/".data cid
  simp at hcolon hlead hdrop
  simp [processMessage, parseSyslogLine,
    breakAtChar_append '>' pri _ h1,
    breakAtChar_append ' ' ts _ h2,
    breakAtChar_append ' ' host _ h3,
    hcolon, hlead, hdrop]

/-- C1 witness: the Relay scenario with the resolver cache pre-seeded with
`contid1`, on the concrete test message. -/
theorem relay_forwards_rewritten_line_witness :
    processMessage
      (fun cid => resolveName ⟨[]⟩ (fun _ => none)
        ⟨[("contid1".data, "myappname".data)], 100⟩ cid)
      "<30>2015-06-05T16:13:47Z myhost docker/contid1: mymsg\n".data =
    some "<30>2015-06-05T16:13:47Z contid1 myappname: mymsg\n".data :=
  relay_forwards_rewritten_line _ "30".data "2015-06-05T16:13:47Z".data
    "myhost".data "contid1".data "mymsg\n".data
    (by decide) (by decide) (by decide) (by decide)

/-- C6: a filename of the convention
`podName_namespace_containerName-containerID.log`, where the pod name and
namespace contain no underscore and the container id contains no hyphen,
parses into its four fields, the remainder being split on its last hyphen. -/
theorem log_entry_from_name_spec (pod ns cn cid : List Char)
    (h1 : '_' ∉ pod) (h2 : '_' ∉ ns) (h3 : '-' ∉ cid) :
    logEntryFromName
      ((pod ++ '_' :: (ns ++ '_' :: (cn ++ '-' :: cid))) ++ ".log".data) =
    ⟨pod, ns, cn, cid⟩ := by
  have hbase := stripTail_append ".log".data
    (pod ++ '_' :: (ns ++ '_' :: (cn ++ '-' :: cid)))
  simp at hbase
  simp [logEntryFromName, hbase,
    breakAtChar_append '_' pod _ h1,
    breakAtChar_append '_' ns _ h2,
    breakAtLastChar_append '-' cn cid h3]

/-- C6 witness: the concrete filename from the test suite. -/
theorem log_entry_from_name_spec_witness :
    logEntryFromName
      "myapp-web-2453793373-cbk0k_default_myapp-web-e50ac4567691092729a360a3a8fdc9741e81030dd3f8e90633c71cba88e32f6b.log".data =
    ⟨"myapp-web-2453793373-cbk0k".data, "default".data, "myapp-web".data,
     "e50ac4567691092729a360a3a8fdc9741e81030dd3f8e90633c71cba88e32f6b".data⟩ :=
  log_entry_from_name_spec "myapp-web-2453793373-cbk0k".data "default".data
    "myapp-web".data
    "e50ac4567691092729a360a3a8fdc9741e81030dd3f8e90633c71cba88e32f6b".data
    (by decide) (by decide) (by decide)

/-- C7: querying the resolver twice for the same container id performs at
most one runtime-inspect call in total, the second query is served from the
cache with the same name, and a runtime lookup failure never propagates —
the name falls back to the container id itself. -/
theorem resolver_caches_single_inspect (cfg : resolverConfig)
    (inspect : List Char → Option (List (List Char)))
    (cache : lruCache) (cid : List Char) (hcap : 0 < cache.capacity) :
    (resolveStep cfg inspect cache cid).inspectCalls +
      (resolveStep cfg inspect
        (resolveStep cfg inspect cache cid).cache cid).inspectCalls ≤ 1 ∧
    (resolveStep cfg inspect
      (resolveStep cfg inspect cache cid).cache cid).name =
      (resolveStep cfg inspect cache cid).name ∧
    (cacheGet cache cid = none → inspect cid = none →
      (resolveStep cfg inspect cache cid).name = cid) := by
  cases hcg : cacheGet cache cid with
  | some v =>
    have hstep : resolveStep cfg inspect cache cid = ⟨v, cache, 0⟩ := by
      simp [resolveStep, hcg]
    refine ⟨?_, ?_, ?_⟩
    · simp [hstep, resolveStep, hcg]
    · simp [hstep, resolveStep, hcg]
    · intro hnone _
      exact Option.noConfusion hnone
  | none =>
    by_cases he : cfg.appNameEnvVar = []
    · have hstep : resolveStep cfg inspect cache cid =
          ⟨cid, cacheAdd cache cid cid, 0⟩ := by
        simp [resolveStep, hcg, he]
      have hget2 := cacheGet_cacheAdd cache cid cid hcap
      have hstep2 : resolveStep cfg inspect (cacheAdd cache cid cid) cid =
          ⟨cid, cacheAdd cache cid cid, 0⟩ := by
        simp [resolveStep, hget2]
      refine ⟨?_, ?_, ?_⟩
      · simp [hstep, hstep2]
      · simp [hstep, hstep2]
      · intro _ _
        simp [hstep]
    · obtain ⟨N, hN⟩ : ∃ N,
          (match inspect cid with
           | none => cid
           | some env => (envAppName cfg.appNameEnvVar env).getD cid) = N :=
        ⟨_, rfl⟩
      have hstep : resolveStep cfg inspect cache cid =
          ⟨N, cacheAdd cache cid N, 1⟩ := by
        simp [resolveStep, hcg, he, hN]
      have hget2 := cacheGet_cacheAdd cache cid N hcap
      have hstep2 : resolveStep cfg inspect (cacheAdd cache cid N) cid =
          ⟨N, cacheAdd cache cid N, 0⟩ := by
        simp [resolveStep, hget2]
      refine ⟨?_, ?_, ?_⟩
      · simp [hstep, hstep2]
      · simp [hstep, hstep2]
      · intro _ hins
        rw [hins] at hN
        simp only at hN
        rw [hstep]
        exact hN.symm

/-- C7 witness: a twice-queried id against a failing runtime with an empty
cache of capacity 100. -/
theorem resolver_caches_single_inspect_witness :
    (resolveStep ⟨"APPNAMEVAR=".data⟩ (fun _ => none) ⟨[], 100⟩
        "cid1".data).inspectCalls +
      (resolveStep ⟨"APPNAMEVAR=".data⟩ (fun _ => none)
        (resolveStep ⟨"APPNAMEVAR=".data⟩ (fun _ => none) ⟨[], 100⟩
          "cid1".data).cache "cid1".data).inspectCalls ≤ 1 ∧
    (resolveStep ⟨"APPNAMEVAR=".data⟩ (fun _ => none)
      (resolveStep ⟨"APPNAMEVAR=".data⟩ (fun _ => none) ⟨[], 100⟩
        "cid1".data).cache "cid1".data).name =
      (resolveStep ⟨"APPNAMEVAR=".data⟩ (fun _ => none) ⟨[], 100⟩
        "cid1".data).name ∧
    (cacheGet ⟨[], 100⟩ "cid1".data = none →
      (fun (_ : List Char) => (none : Option (List (List Char)))) "cid1".data = none →
      (resolveStep ⟨"APPNAMEVAR=".data⟩ (fun _ => none) ⟨[], 100⟩
        "cid1".data).name = "cid1".data) :=
  resolver_caches_single_inspect ⟨"APPNAMEVAR=".data⟩ (fun _ => none)
    ⟨[], 100⟩ "cid1".data (by decide)

/-- C8: a bind address whose scheme is neither `udp` nor `tcp` makes
`start()` fail with the error naming the offending protocol and stating
that tcp or udp was expected; the Relay does not start. -/
theorem start_rejects_invalid_bind_scheme
    (tcpDial : List Char → Except (List Char) Unit)
    (forwards : List (List Char)) (proto rest : List Char)
    (h1 : ':' ∉ proto) (h2 : proto ≠ "udp".data) (h3 : proto ≠ "tcp".data) :
    forwarderStart tcpDial (proto ++ "://".data ++ rest) forwards =
      Except.error ("invalid protocol \"".data ++ proto ++
        "\", expected tcp or udp".data) := by
  have hsplit := breakAtSeq_scheme proto rest h1
  simp at hsplit
  simp [forwarderStart, checkBindAddress, hsplit, h2, h3]

/-- C8 witness: the concrete `xudp` bind address from the test suite. -/
theorem start_rejects_invalid_bind_scheme_witness :
    forwarderStart (fun _ => Except.ok ()) "xudp://0.0.0.0:59317".data [] =
      Except.error "invalid protocol \"xudp\", expected tcp or udp".data :=
  start_rejects_invalid_bind_scheme (fun _ => Except.ok ()) []
    "xudp".data "0.0.0.0:59317".data (by decide) (by decide) (by decide)

/-- C9: when some forward address cannot establish its transport, `start()`
aborts entirely with an error of the form `unable to connect to
"<address>": <underlying cause>`; no partial operation begins. -/
theorem start_aborts_on_forward_failure
    (tcpDial : List Char → Except (List Char) Unit) (bind : List Char)
    (pre : List (List Char)) (bad : List Char) (suf : List (List Char))
    (e : List Char)
    (hb : checkBindAddress bind = Except.ok ())
    (hpre : ∀ a ∈ pre, dialForward tcpDial a = Except.ok ())
    (hbad : dialForward tcpDial bad = Except.error e) :
    forwarderStart tcpDial bind (pre ++ bad :: suf) =
      Except.error ("unable to connect to \"".data ++ bad ++
        "\": ".data ++ e) := by
  simp [forwarderStart, hb, connectForwards_failure tcpDial pre bad suf e hpre hbad]

/-- C9 witness: the concrete unknown-scheme forward address from the test
suite, behind a valid udp bind address. -/
theorem start_aborts_on_forward_failure_witness :
    forwarderStart (fun _ => Except.ok ()) "udp://0.0.0.0:59317".data
      ["xudp://127.0.0.1:1234".data] =
    Except.error
      "unable to connect to \"xudp://127.0.0.1:1234\": dial xudp: unknown network xudp".data :=
  start_aborts_on_forward_failure (fun _ => Except.ok ())
    "udp://0.0.0.0:59317".data [] "xudp://127.0.0.1:1234".data []
    "dial xudp: unknown network xudp".data (by rfl) (by simp) (by rfl)

/-- C10: on a cache miss the configured application-name setting (which
itself carries the trailing `=`) is matched as a literal prefix of the
container's KEY=VALUE environment entries, and the remainder of the first
matching entry is resolved and cached as the display name. -/
theorem resolver_env_literal_match (cfg : resolverConfig)
    (inspect : List Char → Option (List (List Char)))
    (cache : lruCache) (cid : List Char)
    (pre : List (List Char)) (v : List Char) (suf : List (List Char))
    (hne : cfg.appNameEnvVar ≠ [])
    (hmiss : cacheGet cache cid = none)
    (hcap : 0 < cache.capacity)
    (hins : inspect cid = some (pre ++ (cfg.appNameEnvVar ++ v) :: suf))
    (hpre : ∀ e ∈ pre, leadsWith cfg.appNameEnvVar e = false) :
    (resolveStep cfg inspect cache cid).name = v ∧
    cacheGet (resolveStep cfg inspect cache cid).cache cid = some v := by
  have hfind : (pre ++ (cfg.appNameEnvVar ++ v) :: suf).find?
      (fun e => leadsWith cfg.appNameEnvVar e) = some (cfg.appNameEnvVar ++ v) :=
    find?_first_match _ pre _ suf hpre (leadsWith_append _ _)
  have henv : envAppName cfg.appNameEnvVar
      (pre ++ (cfg.appNameEnvVar ++ v) :: suf) = some v := by
    simp [envAppName, hfind, List.drop_left]
  have hadd := cacheGet_cacheAdd cache cid v hcap
  constructor
  · simp [resolveStep, hmiss, hne, hins, henv]
  · simp [resolveStep, hmiss, hne, hins, henv, hadd]

/-- C10 witness: the test environment, where `APPNAMEVAR=` matches the entry
`APPNAMEVAR=coolappname` and resolves the name `coolappname`. -/
theorem resolver_env_literal_match_witness :
    (resolveStep ⟨"APPNAMEVAR=".data⟩
      (fun _ => some ["ENV1=val1".data, "APPNAMEVAR=coolappname".data])
      ⟨[], 100⟩ "cid1".data).name = "coolappname".data ∧
    cacheGet (resolveStep ⟨"APPNAMEVAR=".data⟩
      (fun _ => some ["ENV1=val1".data, "APPNAMEVAR=coolappname".data])
      ⟨[], 100⟩ "cid1".data).cache "cid1".data = some "coolappname".data :=
  resolver_env_literal_match ⟨"APPNAMEVAR=".data⟩
    (fun _ => some ["ENV1=val1".data, "APPNAMEVAR=coolappname".data])
    ⟨[], 100⟩ "cid1".data ["ENV1=val1".data] "coolappname".data []
    (by decide) (by decide) (by decide) (by rfl) (by decide)

theorem newline_not_in_escapeChar (c : Char) : '\n' ∉ escapeChar c := by
  unfold escapeChar
  split_ifs with h1 h2 h3 h4 h5
  · decide
  · decide
  · decide
  · decide
  · decide
  · simp only [List.mem_singleton]
    exact fun he => h3 he.symm

theorem newline_not_in_escapeString (s : List Char) :
    '\n' ∉ escapeString s := by
  intro h
  rw [escapeString] at h
  obtain ⟨l, hl, hm⟩ := List.mem_flatten.mp h
  obtain ⟨c, _, rfl⟩ := List.mem_map.mp hl
  exact newline_not_in_escapeChar c hm

theorem parseJsonString_escape (s r : List Char) :
    parseJsonString (escapeString s ++ '"' :: r) = some (s, r) := by
  induction s with
  | nil =>
    rw [show escapeString [] = [] by simp [escapeString], List.nil_append]
    unfold parseJsonString
    simp
  | cons c cs ih =>
    have hes : escapeString (c :: cs) = escapeChar c ++ escapeString cs := by
      simp [escapeString]
    rw [hes]
    by_cases h1 : c = '"'
    · subst h1; simp [escapeChar, parseJsonString, unescapeChar, ih]
    by_cases h2 : c = '\\'
    · subst h2; simp [escapeChar, parseJsonString, unescapeChar, ih]
    by_cases h3 : c = '\n'
    · subst h3; simp [escapeChar, parseJsonString, unescapeChar, ih]
    by_cases h4 : c = '\t'
    · subst h4; simp [escapeChar, parseJsonString, unescapeChar, ih]
    by_cases h5 : c = '\r'
    · subst h5; simp [escapeChar, parseJsonString, unescapeChar, ih]
    · rw [show escapeChar c = [c] by simp [escapeChar, h1, h2, h3, h4, h5],
        List.singleton_append]
      unfold parseJsonString
      simp [h1, h2, ih]

theorem dropLiteral_append (p r : List Char) :
    dropLiteral p (p ++ r) = some r := by
  simp [dropLiteral, leadsWith_append, List.drop_left]

theorem decodeLogLine_encode (sid : List Char) (l : jsonLogLine)
    (prio : List Char)
    (hs : streamPriority l.stream = some prio)
    (ht : validRFC3339 l.time = true) :
    decodeLogLine sid (encodeLogLine l) =
      some ⟨stripTrailingNewline l.log, l.time, sid, prio⟩ := by
  simp only [decodeLogLine, encodeLogLine, dropLiteral_append,
    parseJsonString_escape, hs, ht, eq_self_iff_true, if_true]

theorem newline_not_in_encodeLogLine (l : jsonLogLine) :
    '\n' ∉ encodeLogLine l := by
  intro h
  rw [encodeLogLine] at h
  have hq : ¬ ('\n' = '"') := by decide
  rcases List.mem_append.mp h with h | h
  · revert h; decide
  rcases List.mem_append.mp h with h | h
  · exact newline_not_in_escapeString _ h
  rcases List.mem_cons.mp h with h | h
  · exact hq h
  rcases List.mem_append.mp h with h | h
  · revert h; decide
  rcases List.mem_append.mp h with h | h
  · exact newline_not_in_escapeString _ h
  rcases List.mem_cons.mp h with h | h
  · exact hq h
  rcases List.mem_append.mp h with h | h
  · revert h; decide
  rcases List.mem_append.mp h with h | h
  · exact newline_not_in_escapeString _ h
  rcases List.mem_cons.mp h with h | h
  · exact hq h
  · revert h; decide

theorem splitLines_encodeLogFile (ls : List jsonLogLine) :
    splitLines (encodeLogFile ls) = (ls.map encodeLogLine, []) := by
  induction ls with
  | nil => simp [encodeLogFile, splitLines]
  | cons l ls ih =>
    have he : encodeLogFile (l :: ls) =
        encodeLogLine l ++ '\n' :: encodeLogFile ls := by
      simp [encodeLogFile]
    rw [he, splitLines_append _ _ (newline_not_in_encodeLogLine l), ih]
    simp

theorem encodeLogFile_length (ls : List jsonLogLine) :
    linesLen (ls.map encodeLogLine) = (encodeLogFile ls).length := by
  have h := splitLines_length (encodeLogFile ls)
  rw [splitLines_encodeLogFile] at h
  simpa using h

theorem decode_encoded_lines (sid : List Char) (ls : List jsonLogLine)
    (h : ∀ l ∈ ls, (l.stream = "stderr".data ∨ l.stream = "stdout".data) ∧
      validRFC3339 l.time = true) :
    (ls.map encodeLogLine).filterMap (decodeLogLine sid) =
      ls.map (fun l => ⟨stripTrailingNewline l.log, l.time, sid,
        if l.stream = "stderr".data then "27".data else "30".data⟩) := by
  induction ls with
  | nil => simp
  | cons l ls ih =>
    obtain ⟨hstream, htime⟩ := h l (List.mem_cons_self l ls)
    have ih' := ih (fun x hx => h x (List.mem_cons_of_mem l hx))
    have hs : streamPriority l.stream =
        some (if l.stream = "stderr".data then "27".data else "30".data) := by
      rcases hstream with hst | hst <;> simp [streamPriority, hst]
    rw [List.map_cons, List.filterMap_cons,
      decodeLogLine_encode sid l _ hs htime, List.map_cons, ih']

/-- C2: a Tailer started on a file of well-formed JSON log lines with no
prior offset-store file starts at offset 0, consumes the whole file, and
emits one record per line in file order — content without its trailing
newline, the line's time, the configured source id, and priority 27 for
stderr and 30 for stdout. -/
theorem tailer_emits_all_wellformed_lines (sid : List Char)
    (ls : List jsonLogLine)
    (h : ∀ l ∈ ls, (l.stream = "stderr".data ∨ l.stream = "stdout".data) ∧
      validRFC3339 l.time = true) :
    stepMonitor sid (encodeLogFile ls) (initialOffset none) =
      ((encodeLogFile ls).length,
       ls.map (fun l => ⟨stripTrailingNewline l.log, l.time, sid,
         if l.stream = "stderr".data then "27".data else "30".data⟩)) := by
  simp only [stepMonitor, initialOffset, ite_self, List.drop_zero,
    splitLines_encodeLogFile, encodeLogFile_length,
    decode_encoded_lines sid ls h, Nat.zero_add]

set_option maxRecDepth 4000 in
/-- C2 witness: the three-line test file with `msg1`, `msg2`, `msg3`. -/
theorem tailer_emits_all_wellformed_lines_witness :
    stepMonitor "cont1".data (encodeLogFile
      [⟨"msg1\n".data, "stderr".data, "2017-03-21T21:28:22.0Z".data⟩,
       ⟨"msg2\n".data, "stdout".data, "2017-03-21T21:28:32.0Z".data⟩,
       ⟨"msg3\n".data, "stderr".data, "2017-03-21T21:28:42.0Z".data⟩])
      (initialOffset none) =
    ((encodeLogFile
      [⟨"msg1\n".data, "stderr".data, "2017-03-21T21:28:22.0Z".data⟩,
       ⟨"msg2\n".data, "stdout".data, "2017-03-21T21:28:32.0Z".data⟩,
       ⟨"msg3\n".data, "stderr".data, "2017-03-21T21:28:42.0Z".data⟩]).length,
     [⟨"msg1".data, "2017-03-21T21:28:22.0Z".data, "cont1".data, "27".data⟩,
      ⟨"msg2".data, "2017-03-21T21:28:32.0Z".data, "cont1".data, "30".data⟩,
      ⟨"msg3".data, "2017-03-21T21:28:42.0Z".data, "cont1".data, "27".data⟩]) := by
  have h := tailer_emits_all_wellformed_lines "cont1".data
    [⟨"msg1\n".data, "stderr".data, "2017-03-21T21:28:22.0Z".data⟩,
     ⟨"msg2\n".data, "stdout".data, "2017-03-21T21:28:32.0Z".data⟩,
     ⟨"msg3\n".data, "stderr".data, "2017-03-21T21:28:42.0Z".data⟩]
    (by decide)
  rw [h]
  decide

/-- C3: a Tailer restarted over the same file with the same offset-store
file seeds its offset from the stored value: nothing before the stored
offset is re-emitted, and every complete line appended after it is emitted. -/
theorem tailer_restart_resumes_from_stored_offset
    (sid content extra : List Char) :
    stepMonitor sid (content ++ extra)
      (initialOffset (some content.length)) =
      (content.length + linesLen (splitLines extra).1,
       (splitLines extra).1.filterMap (decodeLogLine sid)) := by
  have hlt : ¬ ((content ++ extra).length < content.length) := by
    simp [List.length_append]
  simp only [stepMonitor, initialOffset]
  rw [if_neg hlt, List.drop_left]

theorem stepMonitor_fixpoint (sid c : List Char) :
    stepMonitor sid c (linesLen (splitLines c).1) =
      (linesLen (splitLines c).1, []) := by
  have hle := linesLen_le c
  have hlt : ¬ (c.length < linesLen (splitLines c).1) := by omega
  have hrest := splitLines_no_newline _ (splitLines_rest_no_newline c)
  have hnil : linesLen ([] : List (List Char)) = 0 := rfl
  simp only [stepMonitor]
  rw [if_neg hlt, splitLines_drop, hrest]
  simp [hnil]

/-- C4: over any number of poll cycles that each observe the same restored
content (identical bytes, identical length), the monitor emits the records
of that content exactly once — every cycle after the first finds no new
bytes past the consumed offset and emits nothing. -/
theorem tailer_truncate_rewrite_at_most_once (sid c : List Char) (k : Nat) :
    runMonitor sid 0 (List.replicate (k + 1) c) =
      (linesLen (splitLines c).1,
       (splitLines c).1.filterMap (decodeLogLine sid)) := by
  have hstep0 : stepMonitor sid c 0 =
      (linesLen (splitLines c).1,
       (splitLines c).1.filterMap (decodeLogLine sid)) := by
    simp [stepMonitor]
  have hrun : ∀ n, runMonitor sid (linesLen (splitLines c).1)
      (List.replicate n c) = (linesLen (splitLines c).1, []) := by
    intro n
    induction n with
    | zero => simp [runMonitor]
    | succ m ih => simp [List.replicate_succ, runMonitor,
        stepMonitor_fixpoint, ih]
  simp [List.replicate_succ, runMonitor, hstep0, hrun k]

theorem addMonitorStep_mem_mono (acc : List (List Char × List Char))
    (f : List Char) (p : List Char × List Char) (h : p ∈ acc) :
    p ∈ addMonitorStep acc f := by
  simp only [addMonitorStep]
  split_ifs <;> first | exact h | exact List.mem_append_left _ h

theorem addMonitorStep_mem (acc : List (List Char × List Char))
    (f : List Char) (p : List Char × List Char)
    (h : p ∈ addMonitorStep acc f) :
    p ∈ acc ∨ (p.2 = f ∧ filteredOut (logEntryFromName f) = false ∧
      p.1 = (logEntryFromName f).containerID) := by
  simp only [addMonitorStep] at h
  split_ifs at h with h1 h2
  · exact Or.inl h
  · exact Or.inl h
  · rcases List.mem_append.mp h with h' | h'
    · exact Or.inl h'
    · right
      have hp : p = ((logEntryFromName f).containerID, f) := by simpa using h'
      refine ⟨by rw [hp], ?_, by rw [hp]⟩
      exact Bool.not_eq_true _ ▸ (by simpa using h1)

theorem foldl_addMonitor_mem_mono (fs : List (List Char))
    (acc : List (List Char × List Char)) (p : List Char × List Char)
    (h : p ∈ acc) : p ∈ fs.foldl addMonitorStep acc := by
  induction fs generalizing acc with
  | nil => exact h
  | cons f fs ih =>
    rw [List.foldl_cons]
    exact ih _ (addMonitorStep_mem_mono acc f p h)

theorem foldl_addMonitor_mem (fs : List (List Char))
    (acc : List (List Char × List Char)) (p : List Char × List Char)
    (h : p ∈ fs.foldl addMonitorStep acc) :
    p ∈ acc ∨ (p.2 ∈ fs ∧ filteredOut (logEntryFromName p.2) = false ∧
      p.1 = (logEntryFromName p.2).containerID) := by
  induction fs generalizing acc with
  | nil => exact Or.inl h
  | cons f fs ih =>
    rw [List.foldl_cons] at h
    rcases ih _ h with h' | h'
    · rcases addMonitorStep_mem acc f p h' with h'' | h''
      · exact Or.inl h''
      · obtain ⟨he, hf, hc⟩ := h''
        exact Or.inr ⟨by rw [he]; exact List.mem_cons_self f fs,
          by rw [he]; exact hf, by rw [he]; exact hc⟩
    · exact Or.inr ⟨List.mem_cons_of_mem f h'.1, h'.2.1, h'.2.2⟩

theorem foldl_addMonitor_keys_mono (fs : List (List Char))
    (acc : List (List Char × List Char)) (k : List Char)
    (h : k ∈ acc.map Prod.fst) :
    k ∈ (fs.foldl addMonitorStep acc).map Prod.fst := by
  obtain ⟨p, hp, hk⟩ := List.mem_map.mp h
  exact List.mem_map.mpr ⟨p, foldl_addMonitor_mem_mono fs acc p hp, hk⟩

theorem foldl_addMonitor_covers (fs : List (List Char))
    (acc : List (List Char × List Char)) (f : List Char)
    (hf : f ∈ fs) (hnf : filteredOut (logEntryFromName f) = false) :
    (logEntryFromName f).containerID ∈
      (fs.foldl addMonitorStep acc).map Prod.fst := by
  induction fs generalizing acc with
  | nil => cases hf
  | cons g gs ih =>
    rw [List.foldl_cons]
    rcases List.mem_cons.mp hf with rfl | hf'
    · apply foldl_addMonitor_keys_mono
      unfold addMonitorStep
      rw [if_neg (by simp [hnf])]
      by_cases h2 : (logEntryFromName f).containerID ∈ acc.map Prod.fst
      · rw [if_pos h2]; exact h2
      · rw [if_neg h2]; simp
    · exact ih _ hf'

theorem foldl_addMonitor_nodup (fs : List (List Char))
    (acc : List (List Char × List Char))
    (h : (acc.map Prod.fst).Nodup) :
    ((fs.foldl addMonitorStep acc).map Prod.fst).Nodup := by
  induction fs generalizing acc with
  | nil => exact h
  | cons f fs ih =>
    rw [List.foldl_cons]
    apply ih
    simp only [addMonitorStep]
    split_ifs with h1 h2
    · exact h
    · exact h
    · rw [List.map_append]
      exact List.Nodup.append h (List.nodup_singleton _)
        (List.disjoint_singleton.mpr h2)

theorem mem_watchOnce (files : List (List Char))
    (monitors : List (List Char × List Char)) (p : List Char × List Char) :
    p ∈ watchOnce files monitors ↔
      p ∈ (files.filter isLogFile).foldl addMonitorStep monitors ∧
        p.2 ∈ files.filter isLogFile := by
  simp [watchOnce, List.mem_filter]

/-- C5: one watcher cycle never creates a Tailer for a POD container or for
the kube-system namespace, creates one for every other listed log filename
whose container id is not already tracked, and removes every tracked id
whose backing file is absent — so the id-to-Tailer map holds exactly one
entry per currently present, non-filtered container id. -/
theorem watcher_reconcile_invariant (files : List (List Char))
    (monitors : List (List Char × List Char))
    (hInv : ∀ p ∈ monitors, isLogFile p.2 = true ∧
      filteredOut (logEntryFromName p.2) = false ∧
      p.1 = (logEntryFromName p.2).containerID)
    (hNodup : (monitors.map Prod.fst).Nodup)
    (hUniq : ∀ p ∈ monitors, ∀ g ∈ files, isLogFile g = true →
      (logEntryFromName g).containerID = p.1 → g = p.2) :
    (∀ p ∈ watchOnce files monitors, p ∉ monitors →
      p.2 ∈ files ∧ isLogFile p.2 = true ∧
      filteredOut (logEntryFromName p.2) = false ∧
      p.1 = (logEntryFromName p.2).containerID) ∧
    ((watchOnce files monitors).map Prod.fst).Nodup ∧
    (∀ id, id ∈ (watchOnce files monitors).map Prod.fst ↔
      ∃ f, f ∈ files ∧ isLogFile f = true ∧
        filteredOut (logEntryFromName f) = false ∧
        (logEntryFromName f).containerID = id) := by
  refine ⟨?_, ?_, ?_⟩
  · intro p hp hpnew
    obtain ⟨hpf, hpc⟩ := (mem_watchOnce files monitors p).mp hp
    have hpm := List.mem_filter.mp hpc
    rcases foldl_addMonitor_mem _ _ _ hpf with hmem | hnew
    · exact absurd hmem hpnew
    · exact ⟨hpm.1, by simpa using hpm.2, hnew.2.1, hnew.2.2⟩
  · have hsub : List.Sublist ((watchOnce files monitors).map Prod.fst)
        (((files.filter isLogFile).foldl addMonitorStep monitors).map Prod.fst) := by
      simp only [watchOnce]
      exact (List.filter_sublist _).map Prod.fst
    exact List.Nodup.sublist hsub (foldl_addMonitor_nodup _ _ hNodup)
  · intro id
    constructor
    · intro hid
      obtain ⟨p, hp, rfl⟩ := List.mem_map.mp hid
      obtain ⟨hpf, hpc⟩ := (mem_watchOnce files monitors p).mp hp
      have hpm := List.mem_filter.mp hpc
      rcases foldl_addMonitor_mem _ _ _ hpf with hmem | hnew
      · obtain ⟨hlog, hnf, hkey⟩ := hInv p hmem
        exact ⟨p.2, hpm.1, hlog, hnf, hkey.symm⟩
      · exact ⟨p.2, hpm.1, by simpa using hpm.2, hnew.2.1, hnew.2.2.symm⟩
    · rintro ⟨f, hff, hlog, hnf, hcid⟩
      have hfc : f ∈ files.filter isLogFile :=
        List.mem_filter.mpr ⟨hff, by simpa using hlog⟩
      by_cases hidm : id ∈ monitors.map Prod.fst
      · obtain ⟨q, hq, hqk⟩ := List.mem_map.mp hidm
        have hfq : f = q.2 := hUniq q hq f hff hlog (by rw [hcid, hqk])
        have hqin : q ∈ (files.filter isLogFile).foldl addMonitorStep monitors :=
          foldl_addMonitor_mem_mono _ _ _ hq
        have hqw : q ∈ watchOnce files monitors :=
          (mem_watchOnce files monitors q).mpr ⟨hqin, hfq ▸ hfc⟩
        exact List.mem_map.mpr ⟨q, hqw, hqk⟩
      · have hcov := foldl_addMonitor_covers (files.filter isLogFile)
          monitors f hfc hnf
        rw [hcid] at hcov
        obtain ⟨p, hp, hpk⟩ := List.mem_map.mp hcov
        rcases foldl_addMonitor_mem _ _ _ hp with hmem | hnew
        · exact absurd (List.mem_map.mpr ⟨p, hmem, hpk⟩) hidm
        · have hpw : p ∈ watchOnce files monitors :=
            (mem_watchOnce files monitors p).mpr ⟨hp, hnew.1⟩
          exact List.mem_map.mpr ⟨p, hpw, hpk⟩

/-- C5 witness: the ignored-files scenario — a kube-system file and a POD
file produce no monitor while the remaining file produces one, starting
from no tracked monitors. -/
theorem watcher_reconcile_invariant_witness :
    (∀ p ∈ watchOnce
        ["pod1_kube-system_contName1-contID1.log".data,
         "pod2_default_POD-contID2.log".data,
         "pod3_default_contName2-contID3.log".data] [],
      p ∉ ([] : List (List Char × List Char)) →
      p.2 ∈ ["pod1_kube-system_contName1-contID1.log".data,
             "pod2_default_POD-contID2.log".data,
             "pod3_default_contName2-contID3.log".data] ∧
      isLogFile p.2 = true ∧
      filteredOut (logEntryFromName p.2) = false ∧
      p.1 = (logEntryFromName p.2).containerID) ∧
    ((watchOnce
        ["pod1_kube-system_contName1-contID1.log".data,
         "pod2_default_POD-contID2.log".data,
         "pod3_default_contName2-contID3.log".data] []).map Prod.fst).Nodup ∧
    (∀ id, id ∈ (watchOnce
        ["pod1_kube-system_contName1-contID1.log".data,
         "pod2_default_POD-contID2.log".data,
         "pod3_default_contName2-contID3.log".data] []).map Prod.fst ↔
      ∃ f, f ∈ ["pod1_kube-system_contName1-contID1.log".data,
                "pod2_default_POD-contID2.log".data,
                "pod3_default_contName2-contID3.log".data] ∧
        isLogFile f = true ∧
        filteredOut (logEntryFromName f) = false ∧
        (logEntryFromName f).containerID = id) :=
  watcher_reconcile_invariant
    ["pod1_kube-system_contName1-contID1.log".data,
     "pod2_default_POD-contID2.log".data,
     "pod3_default_contName2-contID3.log".data] []
    (by simp) (by simp) (by simp)

end BsLog
